import Mathlib

/-!
Verification of the WhatsApp chat parsing layer
(`src/whatsapp_analyzer/parser.py`, class `ChatParser`).

The embedding works over `List Char` (one Python `str` = one list of
characters, ASCII in all inputs of interest).  Python regular-expression
matching of the three concrete header patterns is embedded as deterministic
character-list matchers: in each pattern every bounded quantifier is
followed by a literal that cannot match the quantified class, so maximal
munch coincides with the backtracking semantics of `re.match`.
`datetime.strptime` is embedded with its genuine alternation semantics
(two-digit numeric forms tried before one-digit forms, with backtracking
into the rest of the format; whitespace in a format matching a nonempty
whitespace run; the final `datetime` constructor validation).
-/

namespace WAParse

/-- ASCII whitespace as recognised by Python's `str.strip` / `\s`
(space, tab, newline, carriage return, vertical tab, form feed). -/
def isSpaceC (c : Char) : Bool :=
  c.toNat = 32 || c.toNat = 9 || c.toNat = 10 || c.toNat = 13 ||
  c.toNat = 11 || c.toNat = 12

/-- ASCII digit test (`\d` in the patterns of interest). -/
def isDigitC (c : Char) : Bool :=
  48 ≤ c.toNat && c.toNat ≤ 57

/-- Numeric value of an ASCII digit. -/
def digitVal (c : Char) : Nat := c.toNat - 48

/-- ASCII lower-casing, as `str.lower` acts on ASCII text. -/
def lowerC (c : Char) : Char :=
  if 65 ≤ c.toNat && c.toNat ≤ 90 then Char.ofNat (c.toNat + 32) else c

/-- `str.lower` over a character list. -/
def lowerL (l : List Char) : List Char := l.map lowerC

/-- Split a leading run of digits: `(digits, rest)`. -/
def splitDigits : List Char → List Char × List Char
  | [] => ([], [])
  | c :: cs =>
    if isDigitC c then
      let p := splitDigits cs
      (c :: p.1, p.2)
    else ([], c :: cs)

/-- Python `str.strip()`: drop whitespace from both ends. -/
def stripL (l : List Char) : List Char :=
  ((l.dropWhile isSpaceC).reverse.dropWhile isSpaceC).reverse

/-- Python `content.split('\n')`: split on every newline, keeping empties. -/
def splitLines : List Char → List (List Char)
  | [] => [[]]
  | c :: cs =>
    if c = '\n' then [] :: splitLines cs
    else
      match splitLines cs with
      | [] => [[c]]
      | l :: ls => (c :: l) :: ls

/-- List-of-characters prefix test (helper for substring search). -/
def isPrefixL : List Char → List Char → Bool
  | [], _ => true
  | _ :: _, [] => false
  | a :: as, b :: bs => a = b && isPrefixL as bs

/-- Python substring containment `pat in s`. -/
def containsSub : List Char → List Char → Bool
  | [], pat => isPrefixL pat []
  | c :: rest, pat => isPrefixL pat (c :: rest) || containsSub rest pat

/-! ### Header-line patterns

`ANDROID_PATTERN = r'(\d{1,2}/\d{1,2}/\d{2,4},\s\d{1,2}:\d{2}\s?[APap][Mm])\s-\s([^:]+):\s(.+)'`
`IOS_PATTERN = r'\[(\d{1,2}/\d{1,2}/\d{2,4},\s\d{1,2}:\d{2}:\d{2}\s?[APap][Mm])\]\s([^:]+):\s(.+)'`
`ALTERNATIVE_PATTERN = r'(\d{1,2}/\d{1,2}/\d{2,4},\s\d{1,2}:\d{2})\s-\s([^:]+):\s(.+)'`
-/

/-- `[APap]` character class. -/
def isApC (c : Char) : Bool := c = 'A' || c = 'P' || c = 'a' || c = 'p'

/-- `[Mm]` character class. -/
def isMmC (c : Char) : Bool := c = 'M' || c = 'm'

/-- Date part `\d{1,2}/\d{1,2}/\d{2,4},\s` shared by all three patterns.
Returns `(consumed characters, rest)`. -/
def matchDate (l : List Char) : Option (List Char × List Char) :=
  let p1 := splitDigits l
  if 1 ≤ p1.1.length && p1.1.length ≤ 2 then
    match p1.2 with
    | '/' :: r2 =>
      let p2 := splitDigits r2
      if 1 ≤ p2.1.length && p2.1.length ≤ 2 then
        match p2.2 with
        | '/' :: r4 =>
          let p3 := splitDigits r4
          if 2 ≤ p3.1.length && p3.1.length ≤ 4 then
            match p3.2 with
            | ',' :: s :: r6 =>
              if isSpaceC s then
                some (p1.1 ++ '/' :: p2.1 ++ '/' :: p3.1 ++ [',', s], r6)
              else none
            | _ => none
          else none
        | _ => none
      else none
    | _ => none
  else none

/-- Time part `\d{1,2}:\d{2}` : `(consumed, rest)`. -/
def matchHM (l : List Char) : Option (List Char × List Char) :=
  let p := splitDigits l
  if 1 ≤ p.1.length && p.1.length ≤ 2 then
    match p.2 with
    | ':' :: m1 :: m2 :: r2 =>
      if isDigitC m1 && isDigitC m2 then some (p.1 ++ ':' :: [m1, m2], r2)
      else none
    | _ => none
  else none

/-- Seconds part `:\d{2}` : `(consumed, rest)`. -/
def matchSec (l : List Char) : Option (List Char × List Char) :=
  match l with
  | ':' :: s1 :: s2 :: r =>
    if isDigitC s1 && isDigitC s2 then some (':' :: [s1, s2], r) else none
  | _ => none

/-- `\s?[APap][Mm]` : `(consumed, rest)`.  The `\s?` option is forced:
a whitespace character is never in `[APap]`. -/
def matchAmPm : List Char → Option (List Char × List Char)
  | c1 :: c2 :: c3 :: r =>
    if isSpaceC c1 then
      if isApC c2 && isMmC c3 then some ([c1, c2, c3], r) else none
    else
      if isApC c1 && isMmC c2 then some ([c1, c2], c3 :: r) else none
  | [c1, c2] => if isApC c1 && isMmC c2 then some ([c1, c2], []) else none
  | _ => none

/-- Separator `\s-\s` between timestamp and author. -/
def matchSepDash : List Char → Option (List Char)
  | s1 :: '-' :: s2 :: r => if isSpaceC s1 && isSpaceC s2 then some r else none
  | _ => none

/-- `([^:]+):\s(.+)` : author up to the first colon, one whitespace,
then the body capture (`.` does not match a newline). -/
def matchAuthorBody (l : List Char) : Option (List Char × List Char) :=
  let a := l.takeWhile (fun c => !(c = ':'))
  let r := l.dropWhile (fun c => !(c = ':'))
  if a.isEmpty then none
  else
    match r with
    | ':' :: s :: r2 =>
      if isSpaceC s then
        let b := r2.takeWhile (fun c => !(c = '\n'))
        if b.isEmpty then none else some (a, b)
      else none
    | _ => none

/-- `re.match(ANDROID_PATTERN, line)`, groups `(timestamp, author, body)`. -/
def androidMatch (l : List Char) : Option (List Char × List Char × List Char) :=
  match matchDate l with
  | none => none
  | some (dt, r1) =>
    match matchHM r1 with
    | none => none
    | some (hm, r2) =>
      match matchAmPm r2 with
      | none => none
      | some (ap, r3) =>
        match matchSepDash r3 with
        | none => none
        | some r4 =>
          match matchAuthorBody r4 with
          | none => none
          | some (a, b) => some (dt ++ hm ++ ap, a, b)

/-- Everything of `IOS_PATTERN` after the opening `\[`. -/
def iosTail (l1 : List Char) : Option (List Char × List Char × List Char) :=
  match matchDate l1 with
  | none => none
  | some (dt, r1) =>
    match matchHM r1 with
    | none => none
    | some (hm, r2) =>
      match matchSec r2 with
      | none => none
      | some (sec, r3) =>
        match matchAmPm r3 with
        | none => none
        | some (ap, r4) =>
          match r4 with
          | ']' :: s :: r5 =>
            if isSpaceC s then
              match matchAuthorBody r5 with
              | none => none
              | some (a, b) => some (dt ++ hm ++ sec ++ ap, a, b)
            else none
          | _ => none

/-- `re.match(IOS_PATTERN, line)`, groups `(timestamp, author, body)`. -/
def iosMatch (l : List Char) : Option (List Char × List Char × List Char) :=
  match l with
  | c :: l1 => if c = '[' then iosTail l1 else none
  | [] => none

/-- `re.match(ALTERNATIVE_PATTERN, line)`, groups `(timestamp, author, body)`. -/
def alternativeMatch (l : List Char) : Option (List Char × List Char × List Char) :=
  match matchDate l with
  | none => none
  | some (dt, r1) =>
    match matchHM r1 with
    | none => none
    | some (hm, r2) =>
      match matchSepDash r2 with
      | none => none
      | some r3 =>
        match matchAuthorBody r3 with
        | none => none
        | some (a, b) => some (dt ++ hm, a, b)

/-- `ChatParser._match_message`: try the patterns in source order
(ANDROID, IOS, ALTERNATIVE) and return the first match's groups. -/
def matchLine (l : List Char) : Option (List Char × List Char × List Char) :=
  match androidMatch l with
  | some x => some x
  | none =>
    match iosMatch l with
    | some x => some x
    | none => alternativeMatch l

/-! ### `datetime.strptime` for the ten formats of `_parse_datetime` -/

/-- One `strptime` directive or literal.  `ws` is a whitespace character in
the format string, which `strptime` compiles to `\s+`. -/
inductive Tok where
  | d | m | y4 | y2 | hh | ii | mi | ss | p
  | lit (c : Char)
  | ws
deriving DecidableEq

/-- Fields gathered by `strptime`, with Python's defaults
(year 1900, month 1, day 1, midnight). -/
structure RawFields where
  year : Nat := 1900
  month : Nat := 1
  day : Nat := 1
  hour : Nat := 0
  minute : Nat := 0
  second : Nat := 0
  hour12 : Option Nat := none
  ampm : Option Bool := none
deriving DecidableEq

/-- Run a format against an input.  Numeric directives follow CPython's
`TimeRE` alternations (two-digit alternatives before the one-digit one,
with backtracking into the rest of the format); the whole input must be
consumed, as `_strptime` rejects unconverted data. -/
def runTok : List Tok → List Char → RawFields → Option RawFields
  | [], cs, f => if cs.isEmpty then some f else none
  | Tok.lit ch :: ts, cs, f =>
    match cs with
    | c0 :: rest => if c0 = ch then runTok ts rest f else none
    | [] => none
  | Tok.ws :: ts, cs, f =>
    match cs with
    | c0 :: rest =>
      if isSpaceC c0 then runTok ts (rest.dropWhile isSpaceC) f else none
    | [] => none
  | Tok.y4 :: ts, cs, f =>
    match cs with
    | c1 :: c2 :: c3 :: c4 :: rest =>
      if isDigitC c1 && isDigitC c2 && isDigitC c3 && isDigitC c4 then
        runTok ts rest
          { f with year :=
              ((digitVal c1 * 10 + digitVal c2) * 10 + digitVal c3) * 10 + digitVal c4 }
      else none
    | _ => none
  | Tok.y2 :: ts, cs, f =>
    match cs with
    | c1 :: c2 :: rest =>
      if isDigitC c1 && isDigitC c2 then
        let v := digitVal c1 * 10 + digitVal c2
        runTok ts rest { f with year := if v ≤ 68 then 2000 + v else 1900 + v }
      else none
    | _ => none
  | Tok.p :: ts, cs, f =>
    match cs with
    | c1 :: c2 :: rest =>
      if (lowerC c1 = 'a' || lowerC c1 = 'p') && lowerC c2 = 'm' then
        runTok ts rest { f with ampm := some (lowerC c1 = 'p') }
      else none
    | _ => none
  | Tok.d :: ts, cs, f =>
    (match cs with
     | c1 :: c2 :: rest =>
       if isDigitC c1 && isDigitC c2 &&
           1 ≤ digitVal c1 * 10 + digitVal c2 && digitVal c1 * 10 + digitVal c2 ≤ 31 then
         runTok ts rest { f with day := digitVal c1 * 10 + digitVal c2 }
       else none
     | _ => none)
    <|>
    (match cs with
     | c1 :: rest =>
       if isDigitC c1 && 1 ≤ digitVal c1 then
         runTok ts rest { f with day := digitVal c1 }
       else none
     | [] => none)
  | Tok.m :: ts, cs, f =>
    (match cs with
     | c1 :: c2 :: rest =>
       if isDigitC c1 && isDigitC c2 &&
           1 ≤ digitVal c1 * 10 + digitVal c2 && digitVal c1 * 10 + digitVal c2 ≤ 12 then
         runTok ts rest { f with month := digitVal c1 * 10 + digitVal c2 }
       else none
     | _ => none)
    <|>
    (match cs with
     | c1 :: rest =>
       if isDigitC c1 && 1 ≤ digitVal c1 then
         runTok ts rest { f with month := digitVal c1 }
       else none
     | [] => none)
  | Tok.ii :: ts, cs, f =>
    (match cs with
     | c1 :: c2 :: rest =>
       if isDigitC c1 && isDigitC c2 &&
           1 ≤ digitVal c1 * 10 + digitVal c2 && digitVal c1 * 10 + digitVal c2 ≤ 12 then
         runTok ts rest { f with hour12 := some (digitVal c1 * 10 + digitVal c2) }
       else none
     | _ => none)
    <|>
    (match cs with
     | c1 :: rest =>
       if isDigitC c1 && 1 ≤ digitVal c1 then
         runTok ts rest { f with hour12 := some (digitVal c1) }
       else none
     | [] => none)
  | Tok.hh :: ts, cs, f =>
    (match cs with
     | c1 :: c2 :: rest =>
       if isDigitC c1 && isDigitC c2 && digitVal c1 * 10 + digitVal c2 ≤ 23 then
         runTok ts rest { f with hour := digitVal c1 * 10 + digitVal c2 }
       else none
     | _ => none)
    <|>
    (match cs with
     | c1 :: rest =>
       if isDigitC c1 then runTok ts rest { f with hour := digitVal c1 } else none
     | [] => none)
  | Tok.mi :: ts, cs, f =>
    (match cs with
     | c1 :: c2 :: rest =>
       if isDigitC c1 && isDigitC c2 && digitVal c1 * 10 + digitVal c2 ≤ 59 then
         runTok ts rest { f with minute := digitVal c1 * 10 + digitVal c2 }
       else none
     | _ => none)
    <|>
    (match cs with
     | c1 :: rest =>
       if isDigitC c1 then runTok ts rest { f with minute := digitVal c1 } else none
     | [] => none)
  | Tok.ss :: ts, cs, f =>
    (match cs with
     | c1 :: c2 :: rest =>
       if isDigitC c1 && isDigitC c2 && digitVal c1 * 10 + digitVal c2 ≤ 61 then
         runTok ts rest { f with second := digitVal c1 * 10 + digitVal c2 }
       else none
     | _ => none)
    <|>
    (match cs with
     | c1 :: rest =>
       if isDigitC c1 then runTok ts rest { f with second := digitVal c1 } else none
     | [] => none)

/-- A parsed naive timestamp. -/
structure DateTime where
  year : Nat
  month : Nat
  day : Nat
  hour : Nat
  minute : Nat
  second : Nat
deriving DecidableEq

/-- Days per month with the Gregorian leap rule,
as validated by the `datetime` constructor. -/
def daysInMonth (y mo : Nat) : Nat :=
  if mo = 2 then
    if y % 4 = 0 && (!(y % 100 = 0) || y % 400 = 0) then 29 else 28
  else if mo = 4 || mo = 6 || mo = 9 || mo = 11 then 30 else 31

/-- Combine the gathered fields as `_strptime` does (12-hour clock with
AM/PM folding) and apply the `datetime` constructor's range validation;
a failure here is a `ValueError` caught by `_parse_datetime`'s loop. -/
def mkDT (f : RawFields) : Option DateTime :=
  let hour :=
    match f.hour12 with
    | some i =>
      match f.ampm with
      | some true => if i = 12 then 12 else i + 12
      | _ => if i = 12 then 0 else i
    | none => f.hour
  if 1 ≤ f.year && f.year ≤ 9999 && 1 ≤ f.month && f.month ≤ 12 &&
      1 ≤ f.day && f.day ≤ daysInMonth f.year f.month &&
      hour ≤ 23 && f.minute ≤ 59 && f.second ≤ 59 then
    some ⟨f.year, f.month, f.day, hour, f.minute, f.second⟩
  else none

/-- The ten formats of `_parse_datetime`, in source order. -/
def formats : List (List Tok) :=
  [ [.d, .lit '/', .m, .lit '/', .y4, .lit ',', .ws, .ii, .lit ':', .mi, .ws, .p],
    [.d, .lit '/', .m, .lit '/', .y2, .lit ',', .ws, .ii, .lit ':', .mi, .ws, .p],
    [.m, .lit '/', .d, .lit '/', .y4, .lit ',', .ws, .ii, .lit ':', .mi, .ws, .p],
    [.m, .lit '/', .d, .lit '/', .y2, .lit ',', .ws, .ii, .lit ':', .mi, .ws, .p],
    [.d, .lit '/', .m, .lit '/', .y4, .lit ',', .ws, .hh, .lit ':', .mi],
    [.d, .lit '/', .m, .lit '/', .y2, .lit ',', .ws, .hh, .lit ':', .mi],
    [.m, .lit '/', .d, .lit '/', .y4, .lit ',', .ws, .hh, .lit ':', .mi],
    [.m, .lit '/', .d, .lit '/', .y2, .lit ',', .ws, .hh, .lit ':', .mi],
    [.d, .lit '/', .m, .lit '/', .y4, .lit ',', .ws, .ii, .lit ':', .mi, .lit ':', .ss, .ws, .p],
    [.d, .lit '/', .m, .lit '/', .y2, .lit ',', .ws, .ii, .lit ':', .mi, .lit ':', .ss, .ws, .p] ]

/-- Try formats in order, returning the first success. -/
def tryFormats : List (List Tok) → List Char → Option DateTime
  | [], _ => none
  | fmt :: fs, s =>
    match runTok fmt s {} with
    | some fields =>
      match mkDT fields with
      | some dt => some dt
      | none => tryFormats fs s
    | none => tryFormats fs s

/-- `ChatParser._parse_datetime`: strip the timestamp, try every format in
order; `none` models the final `raise ValueError`. -/
def parseDatetimeL (ts : List Char) : Option DateTime :=
  tryFormats formats (stripL ts)

/-! ### Message classifier -/

/-- The media indicator list of `_is_media_message`. -/
def mediaIndicators : List String :=
  [ "<Media omitted>", "image omitted", "video omitted", "audio omitted",
    "document omitted", "sticker omitted", "GIF omitted",
    ".jpg", ".png", ".mp4", ".pdf" ]

/-- `ChatParser._is_media_message`: case-insensitive substring search of the
indicator list in the message text. -/
def isMediaMessage (msg : List Char) : Bool :=
  mediaIndicators.any (fun ind => containsSub (lowerL msg) (lowerL ind.toList))

/-- The system indicator list of `_is_system_message`. -/
def systemIndicators : List String :=
  [ "changed the subject", "changed this group", "created group", "added",
    "removed", "left", "joined using this group", "security code changed",
    "Messages and calls are end-to-end encrypted", "You deleted this message",
    "This message was deleted" ]

/-- `ChatParser._is_system_message`: the `author` parameter is accepted but,
as in the source, only the message text is inspected. -/
def isSystemMessage (author msg : List Char) : Bool :=
  systemIndicators.any (fun ind => containsSub (lowerL msg) (lowerL ind.toList))

/-! ### Message assembly (`_parse_content`) and loading -/

/-- One parsed message record (a row of the chat table). -/
structure Message where
  datetime : DateTime
  author : List Char
  message : List Char
  is_media : Bool
  is_system : Bool
deriving DecidableEq

/-- The fatal parse failure of `_parse_datetime`
(`raise ValueError(f"Could not parse datetime: {timestamp}")`), which
`load_chat` propagates; the spec names it `TimestampFormatError`. -/
inductive ChatError where
  | timestampFormat (ts : List Char)
deriving DecidableEq

/-- The loop body of `_parse_content` over the split lines, carrying the
accumulated list and the open (unsealed) message. -/
def parseGo : List (List Char) → List Message → Option Message →
    Except ChatError (List Message)
  | [], msgs, cur => .ok (msgs ++ cur.toList)
  | line :: rest, msgs, cur =>
    if stripL line = [] then parseGo rest msgs cur
    else
      match matchLine line with
      | some (t, a, m) =>
        match parseDatetimeL t with
        | none => .error (.timestampFormat t)
        | some dt =>
          parseGo rest (msgs ++ cur.toList)
            (some ⟨dt, stripL a, stripL m, isMediaMessage m, isSystemMessage a m⟩)
      | none =>
        match cur with
        | some c =>
          parseGo rest msgs (some { c with message := c.message ++ '\n' :: stripL line })
        | none => parseGo rest msgs none

/-- `ChatParser._parse_content`: split on newlines and run the loop. -/
def parseContent (content : String) : Except ChatError (List Message) :=
  parseGo (splitLines content.toList) [] none

/-- Chronological key of a timestamp (fields are within their calendar
ranges for every `DateTime` built by `mkDT`, so this order is the
chronological order). -/
def DateTime.key (d : DateTime) : Nat :=
  ((((d.year * 16 + d.month) * 32 + d.day) * 24 + d.hour) * 60 + d.minute) * 60 + d.second

/-- Non-decreasing timestamp order on messages, the sort key of
`df.sort_values('datetime')`. -/
def msgLe (a b : Message) : Prop := a.datetime.key ≤ b.datetime.key

instance : DecidableRel msgLe := fun a b => Nat.decLe a.datetime.key b.datetime.key

instance : IsTotal Message msgLe := ⟨fun a b => Nat.le_total a.datetime.key b.datetime.key⟩

instance : IsTrans Message msgLe := ⟨fun _ _ _ h1 h2 => Nat.le_trans h1 h2⟩

/-- `ChatParser.load_chat` on file content: parse, then sort the table by
the `datetime` column (the file-system part of `load_chat` is not
modelled; the content string is the file's text). -/
def loadChat (content : String) : Except ChatError (List Message) :=
  (parseContent content).map (List.insertionSort msgLe)

/-- First-occurrence deduplication, as `pandas` `Series.unique` keeps the
order of first appearance. -/
def dedupFirst : List (List Char) → List (List Char)
  | [] => []
  | a :: as => a :: dedupFirst (as.filter (fun x => !(x = a)))
termination_by l => l.length
decreasing_by
  simp only [List.length_cons]
  exact Nat.lt_succ_of_le (List.length_filter_le _ _)

/-- Minimum timestamp key of a nonempty table. -/
def minKey (m0 : Message) (ms : List Message) : Nat :=
  ms.foldl (fun acc mg => Nat.min acc mg.datetime.key) m0.datetime.key

/-- Maximum timestamp key of a nonempty table. -/
def maxKey (m0 : Message) (ms : List Message) : Nat :=
  ms.foldl (fun acc mg => Nat.max acc mg.datetime.key) m0.datetime.key

/-- The summary dictionary built by `get_chat_info`. -/
structure ChatInfo where
  total_messages : Nat
  participants : Nat
  participant_names : List (List Char)
  date_start_key : Nat
  date_end_key : Nat
  media_messages : Nat
  system_messages : Nat
  text_messages : Nat
deriving DecidableEq

/-- `ChatParser.get_chat_info`: the empty dictionary (`none`) for an empty
or absent table, the statistics record otherwise. -/
def getChatInfo (msgs : List Message) : Option ChatInfo :=
  match msgs with
  | [] => none
  | m0 :: rest =>
    some
      { total_messages := msgs.length
        participants := (dedupFirst (msgs.map (fun mg => mg.author))).length
        participant_names := dedupFirst (msgs.map (fun mg => mg.author))
        date_start_key := minKey m0 rest
        date_end_key := maxKey m0 rest
        media_messages := (msgs.filter (fun mg => mg.is_media)).length
        system_messages := (msgs.filter (fun mg => mg.is_system)).length
        text_messages := (msgs.filter (fun mg => !mg.is_media && !mg.is_system)).length }

/-! ### Block view of an input for the round-trip boundary property -/

/-- One assembler block: a header line followed by its continuation
lines. -/
structure Block where
  header : List Char
  conts : List (List Char)
deriving DecidableEq

/-- The raw lines of one block. -/
def blockLines (b : Block) : List (List Char) := b.header :: b.conts

/-- The raw lines of a block sequence. -/
def blocksLines : List Block → List (List Char)
  | [] => []
  | b :: bs => blockLines b ++ blocksLines bs

/-- The message `_parse_content` seals for one block: per the loop, the
fields come from the header match, the body being the trimmed captured
body fragment joined to the trimmed continuation lines by newlines. -/
def sealBlock (b : Block) : Option Message :=
  match matchLine b.header with
  | none => none
  | some (t, a, m) =>
    match parseDatetimeL t with
    | none => none
    | some dt =>
      some ⟨dt, stripL a,
            stripL m ++ (b.conts.map (fun l => '\n' :: stripL l)).flatten,
            isMediaMessage m, isSystemMessage a m⟩

/-- Seal every block of a sequence; fails if any header fails. -/
def sealAll : List Block → Option (List Message)
  | [] => some []
  | b :: bs =>
    match sealBlock b, sealAll bs with
    | some msg, some ms => some (msg :: ms)
    | _, _ => none

/-- Join lines with newlines (the inverse of `splitLines` for
newline-free lines). -/
def joinLinesNL : List (List Char) → List Char
  | [] => []
  | [l] => l
  | l :: ls => l ++ '\n' :: joinLinesNL ls

/-- A sealed message draws author and flags from a given header line:
the line matches some grammar, the message's author is the trimmed
captured author, and both flags are the keyword heuristics applied to
the line's captured body fragment (and author). -/
def flagsFromHeader (l : List Char) (mg : Message) : Prop :=
  ∃ t a m, matchLine l = some (t, a, m) ∧ mg.author = stripL a ∧
    mg.is_media = isMediaMessage m ∧ mg.is_system = isSystemMessage a m

/-- Agreement on the fields a continuation append never changes. -/
def flagAgree (x y : Message) : Prop :=
  x.author = y.author ∧ x.is_media = y.is_media ∧ x.is_system = y.is_system

/-! ### Helper lemmas -/

theorem dropWhile_head_not {p : Char → Bool} :
    ∀ {l : List Char} {x : Char} {xs : List Char}, l.dropWhile p = x :: xs → p x = false := by
  intro l
  induction l with
  | nil => intro x xs h; simp [List.dropWhile] at h
  | cons c cs ih =>
    intro x xs h
    rw [List.dropWhile_cons] at h
    by_cases hc : p c
    · rw [if_pos hc] at h; exact ih h
    · rw [if_neg hc] at h
      injection h with h1 _
      subst h1
      cases hpx : p c
      · rfl
      · exact absurd hpx hc

theorem mem_dropWhile_of_not {p : Char → Bool} {c : Char} (hs : p c = false) :
    ∀ {l : List Char}, c ∈ l → c ∈ l.dropWhile p := by
  intro l
  induction l with
  | nil => simp
  | cons a as ih =>
    intro hc
    rw [List.dropWhile_cons]
    by_cases ha : p a
    · rw [if_pos ha]
      rcases List.mem_cons.mp hc with h | h
      · subst h; rw [hs] at ha; exact absurd ha (by simp)
      · exact ih h
    · rw [if_neg ha]; exact hc

theorem stripL_ne_nil_of_mem {l : List Char} {c : Char}
    (hc : c ∈ l) (hs : isSpaceC c = false) : stripL l ≠ [] := by
  intro h
  unfold stripL at h
  have h2 : (l.dropWhile isSpaceC).reverse.dropWhile isSpaceC = [] :=
    List.reverse_eq_nil_iff.mp h
  rw [List.dropWhile_eq_nil_iff] at h2
  have hcmem : c ∈ (l.dropWhile isSpaceC).reverse :=
    List.mem_reverse.mpr (mem_dropWhile_of_not hs hc)
  have := h2 c hcmem
  rw [hs] at this
  exact absurd this (by simp)

theorem stripL_has_non_space {l : List Char} (h : stripL l ≠ []) :
    ∃ c ∈ stripL l, isSpaceC c = false := by
  rcases hu : (l.dropWhile isSpaceC).reverse.dropWhile isSpaceC with _ | ⟨x, xs⟩
  · exact absurd (by unfold stripL; rw [hu]; rfl) h
  · refine ⟨x, ?_, dropWhile_head_not hu⟩
    unfold stripL
    rw [hu]
    exact List.mem_reverse.mpr (List.mem_cons_self x xs)

theorem isDigit_not_space {c : Char} (h : isDigitC c = true) : isSpaceC c = false := by
  simp only [isDigitC, Bool.and_eq_true, decide_eq_true_eq] at h
  simp only [isSpaceC, Bool.or_eq_false_iff, decide_eq_false_iff_not]
  omega

theorem matchDate_head {l : List Char} {x : List Char × List Char}
    (h : matchDate l = some x) : ∃ c cs, l = c :: cs ∧ isDigitC c = true := by
  cases l with
  | nil => simp [matchDate, splitDigits] at h
  | cons c cs =>
    by_cases hc : isDigitC c
    · exact ⟨c, cs, rfl, hc⟩
    · rw [matchDate] at h
      simp [splitDigits, hc] at h

theorem androidMatch_date {l : List Char} {x : List Char × List Char × List Char}
    (h : androidMatch l = some x) : ∃ z, matchDate l = some z := by
  unfold androidMatch at h
  cases hd : matchDate l with
  | none => rw [hd] at h; exact absurd h (by simp)
  | some z => exact ⟨z, rfl⟩

theorem alternativeMatch_date {l : List Char} {x : List Char × List Char × List Char}
    (h : alternativeMatch l = some x) : ∃ z, matchDate l = some z := by
  unfold alternativeMatch at h
  cases hd : matchDate l with
  | none => rw [hd] at h; exact absurd h (by simp)
  | some z => exact ⟨z, rfl⟩

theorem iosMatch_head {l : List Char} {x : List Char × List Char × List Char}
    (h : iosMatch l = some x) : ∃ cs, l = '[' :: cs := by
  cases l with
  | nil => simp [iosMatch] at h
  | cons c cs =>
    by_cases hc : c = '['
    · exact ⟨cs, by rw [hc]⟩
    · simp [iosMatch, hc] at h

theorem matchLine_stripL_ne {l : List Char} {x : List Char × List Char × List Char}
    (h : matchLine l = some x) : stripL l ≠ [] := by
  unfold matchLine at h
  cases ha : androidMatch l with
  | some y =>
    obtain ⟨z, hz⟩ := androidMatch_date ha
    obtain ⟨c, cs, rfl, hd⟩ := matchDate_head hz
    exact stripL_ne_nil_of_mem (List.mem_cons_self c cs) (isDigit_not_space hd)
  | none =>
    rw [ha] at h
    cases hi : iosMatch l with
    | some y =>
      obtain ⟨cs, rfl⟩ := iosMatch_head hi
      exact stripL_ne_nil_of_mem (List.mem_cons_self '[' cs) (by decide)
    | none =>
      rw [hi] at h
      obtain ⟨z, hz⟩ := alternativeMatch_date h
      obtain ⟨c, cs, rfl, hd⟩ := matchDate_head hz
      exact stripL_ne_nil_of_mem (List.mem_cons_self c cs) (isDigit_not_space hd)

theorem androidMatch_bracket (l1 : List Char) : androidMatch ('[' :: l1) = none := by
  have hd : matchDate ('[' :: l1) = none := by
    have hnd : isDigitC '[' = false := by decide
    simp [matchDate, splitDigits, hnd]
  simp [androidMatch, hd]

/-! ### Claim theorems -/

/-- C7: parsing the single line
`12/25/2023, 10:30 AM - Alice: Hey! Merry Christmas!` yields exactly one
message, author `Alice`, body `Hey! Merry Christmas!`, with both
classifier flags false (the timestamp resolves via the month-first
12-hour format to 2023-12-25 10:30:00). -/
theorem scenario_android_single_line :
    parseContent "12/25/2023, 10:30 AM - Alice: Hey! Merry Christmas!" =
      .ok [⟨⟨2023, 12, 25, 10, 30, 0⟩, "Alice".toList,
            "Hey! Merry Christmas!".toList, false, false⟩] := by
  rfl

/-- C2 (failing input): the seconds-bearing month-first line
`[12/25/2023, 10:30:00 AM] Alice: Hey! Merry Christmas!` is recognised
by the bracketed grammar, but `_parse_datetime`'s format list contains no
month-first format with seconds, so the whole parse aborts with the
timestamp error instead of producing the message the spec describes. -/
theorem scenario_ios_seconds_line_fails :
    parseContent "[12/25/2023, 10:30:00 AM] Alice: Hey! Merry Christmas!" =
      .error (.timestampFormat "12/25/2023, 10:30:00 AM".toList) := by
  rfl

/-- C10: the system-notification check ignores its author argument
entirely; any two authors give the same result on every body. -/
theorem system_check_author_independent (a1 a2 msg : List Char) :
    isSystemMessage a1 msg = isSystemMessage a2 msg := rfl

/-- C6: grammar priority.  A line matched by the bracketed (iOS) grammar
is always parsed per that grammar (the unbracketed grammars cannot match
a line opening with `[`, so the claim's both-grammars case holds a
fortiori), and a line matched by the strict-time (AM/PM) unbracketed
grammar is always parsed per it, it being first in the ordered list. -/
theorem format_priority :
    (∀ l t a m, iosMatch l = some (t, a, m) → matchLine l = some (t, a, m)) ∧
    (∀ l t a m, androidMatch l = some (t, a, m) → matchLine l = some (t, a, m)) := by
  constructor
  · intro l t a m h
    obtain ⟨cs, rfl⟩ := iosMatch_head h
    rw [matchLine, androidMatch_bracket, h]
  · intro l t a m h
    rw [matchLine, h]

/-- Witness for C6 at a concrete bracketed line. -/
theorem format_priority_witness :
    matchLine "[12/25/2023, 10:30:00 AM] Alice: Hey! Merry Christmas!".toList =
      some ("12/25/2023, 10:30:00 AM".toList, "Alice".toList,
            "Hey! Merry Christmas!".toList) :=
  format_priority.1 _ _ _ _ (by decide)

/-- C1 (counterexample): a media keyword arriving in a continuation line
does not set `is_media`: the sealed body trips the media heuristic while
the stored flag, computed from the header fragment `hi` alone, is false. -/
theorem classifier_ignores_continuations_cex :
    parseContent "1/1/2023, 1:23 pm - a: hi\n<Media omitted>" =
      .ok [⟨⟨2023, 1, 1, 13, 23, 0⟩, "a".toList,
            "hi\n<Media omitted>".toList, false, false⟩] ∧
    isMediaMessage "hi\n<Media omitted>".toList = true := by
  exact ⟨by rfl, by decide⟩

/-- C9 (counterexample): a header line whose captured body fragment is
all whitespace (`1/1/2023, 1:23 pm - a:  `) seals a message whose body is
empty, refuting the never-empty-body invariant. -/
theorem empty_body_cex :
    parseContent "1/1/2023, 1:23 pm - a:  " =
      .ok [⟨⟨2023, 1, 1, 13, 23, 0⟩, "a".toList, [], false, false⟩] := by
  rfl

theorem parseGo_no_headers :
    ∀ (lines : List (List Char)) (msgs : List Message),
      (∀ l ∈ lines, matchLine l = none) → parseGo lines msgs none = .ok msgs := by
  intro lines
  induction lines with
  | nil => intro msgs _; simp [parseGo]
  | cons line rest ih =>
    intro msgs h
    have hm : matchLine line = none := h line (List.mem_cons_self line rest)
    by_cases hb : stripL line = []
    · rw [show parseGo (line :: rest) msgs none = parseGo rest msgs none by
        simp only [parseGo]; rw [if_pos hb]]
      exact ih msgs fun l hl => h l (List.mem_cons_of_mem line hl)
    · rw [show parseGo (line :: rest) msgs none = parseGo rest msgs none by
        simp only [parseGo]; rw [if_neg hb, hm]]
      exact ih msgs fun l hl => h l (List.mem_cons_of_mem line hl)

/-- C8: content in which no line matches any header grammar (in
particular empty or all-blank content) loads as an empty chat table
rather than an error, and the summary of an empty table is the empty
dictionary rather than a failure. -/
theorem load_tolerates_empty (content : String)
    (h : ∀ l ∈ splitLines content.toList, matchLine l = none) :
    loadChat content = .ok [] ∧ getChatInfo [] = none := by
  refine ⟨?_, rfl⟩
  unfold loadChat parseContent
  rw [parseGo_no_headers _ _ h]
  rfl

/-- Witness for C8 on a concrete all-blank input. -/
theorem load_tolerates_empty_witness :
    loadChat "\n   \n" = .ok [] ∧ getChatInfo [] = none :=
  load_tolerates_empty "\n   \n" (by decide)

theorem parseGo_fatal :
    ∀ (lines : List (List Char)) (msgs : List Message) (cur : Option Message),
      (∃ l ∈ lines, ∃ t a m, matchLine l = some (t, a, m) ∧ parseDatetimeL t = none) →
      ∃ ts, parseGo lines msgs cur = .error (.timestampFormat ts) := by
  intro lines
  induction lines with
  | nil =>
    rintro msgs cur ⟨l, hl, -⟩
    exact absurd hl (List.not_mem_nil l)
  | cons line rest ih =>
    rintro msgs cur ⟨l, hl, t, a, m, hm, hd⟩
    rcases List.mem_cons.mp hl with rfl | hl2
    · have hb : stripL l ≠ [] := matchLine_stripL_ne hm
      refine ⟨t, ?_⟩
      simp only [parseGo]
      rw [if_neg hb]
      simp only [hm, hd]
    · by_cases hb : stripL line = []
      · obtain ⟨ts, hts⟩ := ih msgs cur ⟨l, hl2, t, a, m, hm, hd⟩
        refine ⟨ts, ?_⟩
        simp only [parseGo]
        rw [if_pos hb]
        exact hts
      · cases hml : matchLine line with
        | none =>
          cases cur with
          | none =>
            obtain ⟨ts, hts⟩ := ih msgs none ⟨l, hl2, t, a, m, hm, hd⟩
            refine ⟨ts, ?_⟩
            simp only [parseGo]
            rw [if_neg hb, hml]
            exact hts
          | some c =>
            obtain ⟨ts, hts⟩ :=
              ih msgs (some { c with message := c.message ++ '\n' :: stripL line })
                ⟨l, hl2, t, a, m, hm, hd⟩
            refine ⟨ts, ?_⟩
            simp only [parseGo]
            rw [if_neg hb, hml]
            exact hts
        | some x =>
          obtain ⟨t2, a2, m2⟩ := x
          cases hd2 : parseDatetimeL t2 with
          | none =>
            refine ⟨t2, ?_⟩
            simp only [parseGo]
            rw [if_neg hb]
            simp only [hml, hd2]
          | some dt =>
            obtain ⟨ts, hts⟩ :=
              ih (msgs ++ cur.toList)
                (some ⟨dt, stripL a2, stripL m2, isMediaMessage m2, isSystemMessage a2 m2⟩)
                ⟨l, hl2, t, a, m, hm, hd⟩
            refine ⟨ts, ?_⟩
            simp only [parseGo]
            rw [if_neg hb]
            simp only [hml, hd2]
            exact hts

/-- C3: whenever some line of the content is matched as a header but its
captured timestamp is rejected by every known format, the whole load
fails with the timestamp error — the result type carries no partial
table. -/
theorem load_fatal_on_bad_timestamp (content : String)
    (h : ∃ l ∈ splitLines content.toList, ∃ t a m,
          matchLine l = some (t, a, m) ∧ parseDatetimeL t = none) :
    ∃ ts, loadChat content = .error (.timestampFormat ts) := by
  obtain ⟨ts, hts⟩ := parseGo_fatal _ [] none h
  refine ⟨ts, ?_⟩
  unfold loadChat parseContent
  rw [hts]
  rfl

/-- Witness for C3 on the spec's own unparsable-timestamp input. -/
theorem load_fatal_witness :
    ∃ ts, loadChat "99/99/9999, 99:99 - a: hi" = .error (.timestampFormat ts) :=
  load_fatal_on_bad_timestamp _
    ⟨"99/99/9999, 99:99 - a: hi".toList, by decide,
     "99/99/9999, 99:99".toList, "a".toList, "hi".toList, by decide, by decide⟩

/-- C4: every table successfully returned by load is sorted
non-decreasing by timestamp. -/
theorem load_sorted (content : String) (msgs : List Message)
    (h : loadChat content = .ok msgs) : List.Sorted msgLe msgs := by
  unfold loadChat at h
  cases hp : parseContent content with
  | error e =>
    rw [hp] at h
    exact absurd (show Except.error e = Except.ok msgs from h) (by simp)
  | ok ms =>
    rw [hp] at h
    have h2 : Except.ok (ε := ChatError) (List.insertionSort msgLe ms) = .ok msgs := h
    injection h2 with h3
    rw [← h3]
    exact List.sorted_insertionSort msgLe ms

/-- Witness for C4: loading two out-of-order lines yields the
chronologically sorted table. -/
theorem load_sorted_witness :
    List.Sorted msgLe
      [⟨⟨2023, 1, 1, 10, 30, 0⟩, "A".toList, "first".toList, false, false⟩,
       ⟨⟨2023, 2, 1, 10, 30, 0⟩, "B".toList, "second".toList, false, false⟩] :=
  load_sorted "1/2/2023, 10:30 AM - B: second\n1/1/2023, 10:30 AM - A: first" _ (by rfl)

theorem splitLines_no_nl {l : List Char} (h : '\n' ∉ l) : splitLines l = [l] := by
  induction l with
  | nil => rfl
  | cons c cs ih =>
    have hc : ¬(c = '\n') := fun he => h (he ▸ List.mem_cons_self c cs)
    have hcs : '\n' ∉ cs := fun hm => h (List.mem_cons_of_mem c hm)
    rw [splitLines, if_neg hc, ih hcs]

theorem splitLines_append_nl {l rest : List Char} (h : '\n' ∉ l) :
    splitLines (l ++ '\n' :: rest) = l :: splitLines rest := by
  induction l with
  | nil => simp [splitLines]
  | cons c cs ih =>
    have hc : ¬(c = '\n') := fun he => h (he ▸ List.mem_cons_self c cs)
    have hcs : '\n' ∉ cs := fun hm => h (List.mem_cons_of_mem c hm)
    rw [List.cons_append, splitLines, if_neg hc, ih hcs]

theorem splitLines_join {ls : List (List Char)} (hne : ls ≠ [])
    (h : ∀ l ∈ ls, '\n' ∉ l) : splitLines (joinLinesNL ls) = ls := by
  induction ls with
  | nil => exact absurd rfl hne
  | cons l ls2 ih =>
    cases ls2 with
    | nil => exact splitLines_no_nl (h l (List.mem_cons_self l []))
    | cons l2 ls3 =>
      rw [show joinLinesNL (l :: l2 :: ls3) = l ++ '\n' :: joinLinesNL (l2 :: ls3) from rfl,
        splitLines_append_nl (h l (List.mem_cons_self l (l2 :: ls3))),
        ih (by simp) (fun x hx => h x (List.mem_cons_of_mem l hx))]

theorem sealAll_length : ∀ {bs : List Block} {ms : List Message},
    sealAll bs = some ms → ms.length = bs.length := by
  intro bs
  induction bs with
  | nil =>
    intro ms hs
    have h2 : some ([] : List Message) = some ms := hs
    injection h2 with h3
    rw [← h3]
    rfl
  | cons b bs2 ih =>
    intro ms hs
    cases hsb : sealBlock b with
    | none =>
      simp only [sealAll, hsb] at hs
      exact Option.noConfusion hs
    | some msg =>
      cases hsa : sealAll bs2 with
      | none =>
        simp only [sealAll, hsb, hsa] at hs
        exact Option.noConfusion hs
      | some ms2 =>
        simp only [sealAll, hsb, hsa] at hs
        injection hs with h4
        rw [← h4]
        simp [ih hsa]

theorem parseGo_conts :
    ∀ (conts rest : List (List Char)) (msgs : List Message) (c : Message),
      (∀ l ∈ conts, matchLine l = none ∧ stripL l ≠ []) →
      parseGo (conts ++ rest) msgs (some c) =
        parseGo rest msgs
          (some { c with message :=
              c.message ++ (conts.map (fun l => '\n' :: stripL l)).flatten }) := by
  intro conts
  induction conts with
  | nil =>
    intro rest msgs c _
    simp
  | cons l ls ih =>
    intro rest msgs c h
    have h1 := h l (List.mem_cons_self l ls)
    rw [List.cons_append]
    simp only [parseGo]
    rw [if_neg h1.2]
    simp only [h1.1]
    rw [ih rest msgs _ (fun x hx => h x (List.mem_cons_of_mem l hx))]
    simp [List.append_assoc]

theorem parseGo_blocks :
    ∀ (bs : List Block) (msgs : List Message) (cur : Option Message) (ms : List Message),
      (∀ b ∈ bs, ∀ c ∈ b.conts, matchLine c = none ∧ stripL c ≠ []) →
      sealAll bs = some ms →
      parseGo (blocksLines bs) msgs cur = .ok ((msgs ++ cur.toList) ++ ms) := by
  intro bs
  induction bs with
  | nil =>
    intro msgs cur ms _ hs
    have h2 : some ([] : List Message) = some ms := hs
    injection h2 with h3
    rw [← h3]
    simp [blocksLines, parseGo]
  | cons b bs2 ih =>
    intro msgs cur ms h hs
    cases hsb : sealBlock b with
    | none =>
      simp only [sealAll, hsb] at hs
      exact Option.noConfusion hs
    | some msg =>
      cases hsa : sealAll bs2 with
      | none =>
        simp only [sealAll, hsb, hsa] at hs
        exact Option.noConfusion hs
      | some ms2 =>
        simp only [sealAll, hsb, hsa] at hs
        unfold sealBlock at hsb
        cases hml : matchLine b.header with
        | none =>
          simp only [hml] at hsb
          exact Option.noConfusion hsb
        | some x =>
          obtain ⟨t, a, m⟩ := x
          simp only [hml] at hsb
          cases hpd : parseDatetimeL t with
          | none =>
            simp only [hpd] at hsb
            exact Option.noConfusion hsb
          | some dt =>
            simp only [hpd] at hsb
            injection hsb with hmsg
            rw [show blocksLines (b :: bs2) =
                b.header :: (b.conts ++ blocksLines bs2) from by
              simp [blocksLines, blockLines]]
            simp only [parseGo]
            rw [if_neg (matchLine_stripL_ne hml)]
            simp only [hml, hpd]
            rw [parseGo_conts b.conts (blocksLines bs2) (msgs ++ cur.toList) _
              (h b (List.mem_cons_self b bs2))]
            rw [ih (msgs ++ cur.toList) _ ms2
              (fun bb hbb cc hcc => h bb (List.mem_cons_of_mem b hbb) cc hcc) hsa]
            injection hs with hms
            rw [← hms, ← hmsg]
            simp [List.append_assoc]

/-- C5: round-trip boundary property.  For an input assembled from N
blocks — each a well-formed header line (sealed by `sealBlock`) followed
by continuation lines that match no grammar and are not blank, all lines
newline-free — the parser yields exactly the N sealed messages, the i-th
body being the i-th header's trimmed captured body newline-joined with
its trimmed continuation lines, as `sealBlock` prescribes. -/
theorem assembler_round_trip (bs : List Block) (ms : List Message)
    (hcont : ∀ b ∈ bs, ∀ c ∈ b.conts, matchLine c = none ∧ stripL c ≠ [])
    (hnl : ∀ l ∈ blocksLines bs, '\n' ∉ l)
    (hs : sealAll bs = some ms) :
    parseContent (String.mk (joinLinesNL (blocksLines bs))) = .ok ms ∧
      ms.length = bs.length := by
  refine ⟨?_, sealAll_length hs⟩
  unfold parseContent
  show parseGo (splitLines (joinLinesNL (blocksLines bs))) [] none = .ok ms
  cases bs with
  | nil =>
    have h2 : some ([] : List Message) = some ms := hs
    injection h2 with h3
    rw [← h3]
    rfl
  | cons b bs2 =>
    rw [splitLines_join (by simp [blocksLines, blockLines]) hnl]
    have := parseGo_blocks (b :: bs2) [] none ms hcont hs
    simpa using this

/-- Witness for C5: two consecutive same-author header lines with no
continuation line between them seal as two distinct messages. -/
theorem assembler_round_trip_witness :
    parseContent (String.mk (joinLinesNL (blocksLines
        [⟨"1/1/2023, 10:30 AM - Alice: first".toList, []⟩,
         ⟨"1/1/2023, 10:31 AM - Alice: second".toList, []⟩]))) =
      .ok [⟨⟨2023, 1, 1, 10, 30, 0⟩, "Alice".toList, "first".toList, false, false⟩,
           ⟨⟨2023, 1, 1, 10, 31, 0⟩, "Alice".toList, "second".toList, false, false⟩] ∧
      ([⟨⟨2023, 1, 1, 10, 30, 0⟩, "Alice".toList, "first".toList, false, false⟩,
        ⟨⟨2023, 1, 1, 10, 31, 0⟩, "Alice".toList, "second".toList, false, false⟩]
          : List Message).length =
        ([⟨"1/1/2023, 10:30 AM - Alice: first".toList, []⟩,
          ⟨"1/1/2023, 10:31 AM - Alice: second".toList, []⟩] : List Block).length :=
  assembler_round_trip _ _ (by decide) (by decide) (by rfl)

theorem parseGo_bodies :
    ∀ (lines : List (List Char)) (msgs : List Message) (cur : Option Message)
      (out : List Message),
      (∀ l ∈ lines, ∀ t a m, matchLine l = some (t, a, m) → stripL m ≠ []) →
      (∀ mg ∈ msgs, ∃ c ∈ mg.message, isSpaceC c = false) →
      (∀ mg, cur = some mg → ∃ c ∈ mg.message, isSpaceC c = false) →
      parseGo lines msgs cur = .ok out →
      ∀ mg ∈ out, ∃ c ∈ mg.message, isSpaceC c = false := by
  intro lines
  induction lines with
  | nil =>
    intro msgs cur out _ hmsgs hcur hp mg hmg
    have h2 : Except.ok (ε := ChatError) (msgs ++ cur.toList) = .ok out := hp
    injection h2 with h3
    rw [← h3] at hmg
    rcases List.mem_append.mp hmg with hmem | hmem
    · exact hmsgs mg hmem
    · cases cur with
      | none => exact absurd hmem (List.not_mem_nil mg)
      | some c =>
        have : mg = c := by simpa using hmem
        exact this ▸ hcur c rfl
  | cons line rest ih =>
    intro msgs cur out hl hmsgs hcur hp mg hmg
    by_cases hb : stripL line = []
    · rw [show parseGo (line :: rest) msgs cur = parseGo rest msgs cur from by
        simp only [parseGo]; rw [if_pos hb]] at hp
      exact ih msgs cur out (fun l h2 => hl l (List.mem_cons_of_mem line h2))
        hmsgs hcur hp mg hmg
    · cases hml : matchLine line with
      | some x =>
        obtain ⟨t, a, m⟩ := x
        cases hpd : parseDatetimeL t with
        | none =>
          simp only [parseGo] at hp
          rw [if_neg hb] at hp
          simp only [hml, hpd] at hp
          exact Except.noConfusion hp
        | some dt =>
          simp only [parseGo] at hp
          rw [if_neg hb] at hp
          simp only [hml, hpd] at hp
          refine ih _ _ _ (fun l h2 => hl l (List.mem_cons_of_mem line h2)) ?_ ?_ hp mg hmg
          · intro mg2 hmg2
            rcases List.mem_append.mp hmg2 with hmem | hmem
            · exact hmsgs mg2 hmem
            · cases cur with
              | none => exact absurd hmem (List.not_mem_nil mg2)
              | some c =>
                have : mg2 = c := by simpa using hmem
                exact this ▸ hcur c rfl
          · intro mg2 hmg2
            injection hmg2 with h3
            have hm2 : stripL m ≠ [] := hl line (List.mem_cons_self line rest) t a m hml
            have := stripL_has_non_space hm2
            rw [← h3]
            exact this
      | none =>
        cases cur with
        | some c =>
          simp only [parseGo] at hp
          rw [if_neg hb] at hp
          simp only [hml] at hp
          refine ih _ _ _ (fun l h2 => hl l (List.mem_cons_of_mem line h2)) hmsgs ?_ hp mg hmg
          intro mg2 hmg2
          injection hmg2 with h3
          obtain ⟨ch, hch, hchs⟩ := hcur c rfl
          refine ⟨ch, ?_, hchs⟩
          rw [← h3]
          exact List.mem_append_left _ hch
        | none =>
          simp only [parseGo] at hp
          rw [if_neg hb] at hp
          simp only [hml] at hp
          exact ih _ _ _ (fun l h2 => hl l (List.mem_cons_of_mem line h2))
            hmsgs hcur hp mg hmg

/-- C9 (amended): every sealed message whose opening header line captured
a body fragment with some non-whitespace character has a body containing
a non-whitespace character; bodies can only be blank when the header's
captured fragment was itself all whitespace (see the counterexample). -/
theorem bodies_non_blank (content : String) (msgs : List Message)
    (h : parseContent content = .ok msgs)
    (hfrag : ∀ l ∈ splitLines content.toList, ∀ t a m,
        matchLine l = some (t, a, m) → stripL m ≠ []) :
    ∀ mg ∈ msgs, ∃ c ∈ mg.message, isSpaceC c = false :=
  parseGo_bodies _ [] none msgs hfrag (by simp) (by simp) h

/-- Witness for C9's amended invariant on a one-message input. -/
theorem bodies_non_blank_witness :
    ∃ c ∈ (⟨⟨2023, 1, 1, 10, 30, 0⟩, "a".toList, "hi".toList, false, false⟩
        : Message).message, isSpaceC c = false := by
  refine bodies_non_blank "1/1/2023, 10:30 AM - a: hi"
    [⟨⟨2023, 1, 1, 10, 30, 0⟩, "a".toList, "hi".toList, false, false⟩]
    (by rfl) ?_ _ (by simp)
  intro l hl t a m hm
  have hsp : splitLines ("1/1/2023, 10:30 AM - a: hi" : String).toList =
      ["1/1/2023, 10:30 AM - a: hi".toList] := by rfl
  rw [hsp] at hl
  have hl2 : l = "1/1/2023, 10:30 AM - a: hi".toList := by simpa using hl
  subst hl2
  have hmm : matchLine "1/1/2023, 10:30 AM - a: hi".toList =
      some ("1/1/2023, 10:30 AM".toList, "a".toList, "hi".toList) := by rfl
  rw [hmm] at hm
  have h3 : ("1/1/2023, 10:30 AM".toList, "a".toList, "hi".toList)
      = (t, a, m) := by injection hm
  have h4 : m = "hi".toList := by
    have := congrArg (fun p => p.2.2) h3
    simpa using this.symm
  rw [h4]
  decide

theorem parseGo_flags :
    ∀ (lines : List (List Char)) (msgs : List Message) (cur : Option Message)
      (out : List Message),
      parseGo lines msgs cur = .ok out →
      ∀ mg ∈ out, mg ∈ msgs ∨ (∃ c, cur = some c ∧ flagAgree mg c) ∨
        ∃ l ∈ lines, flagsFromHeader l mg := by
  intro lines
  induction lines with
  | nil =>
    intro msgs cur out hp mg hmg
    have h2 : Except.ok (ε := ChatError) (msgs ++ cur.toList) = .ok out := hp
    injection h2 with h3
    rw [← h3] at hmg
    rcases List.mem_append.mp hmg with hmem | hmem
    · exact Or.inl hmem
    · cases cur with
      | none => exact absurd hmem (List.not_mem_nil mg)
      | some c =>
        have : mg = c := by simpa using hmem
        exact Or.inr (Or.inl ⟨c, rfl, this ▸ ⟨rfl, rfl, rfl⟩⟩)
  | cons line rest ih =>
    intro msgs cur out hp mg hmg
    by_cases hb : stripL line = []
    · rw [show parseGo (line :: rest) msgs cur = parseGo rest msgs cur from by
        simp only [parseGo]; rw [if_pos hb]] at hp
      rcases ih msgs cur out hp mg hmg with h1 | h2 | ⟨l, hl, hf⟩
      · exact Or.inl h1
      · exact Or.inr (Or.inl h2)
      · exact Or.inr (Or.inr ⟨l, List.mem_cons_of_mem line hl, hf⟩)
    · cases hml : matchLine line with
      | some x =>
        obtain ⟨t, a, m⟩ := x
        cases hpd : parseDatetimeL t with
        | none =>
          simp only [parseGo] at hp
          rw [if_neg hb] at hp
          simp only [hml, hpd] at hp
          exact Except.noConfusion hp
        | some dt =>
          simp only [parseGo] at hp
          rw [if_neg hb] at hp
          simp only [hml, hpd] at hp
          rcases ih _ _ out hp mg hmg with h1 | ⟨c2, hc2, hag⟩ | ⟨l, hl, hf⟩
          · rcases List.mem_append.mp h1 with hmem | hmem
            · exact Or.inl hmem
            · cases cur with
              | none => exact absurd hmem (List.not_mem_nil mg)
              | some c =>
                have : mg = c := by simpa using hmem
                exact Or.inr (Or.inl ⟨c, rfl, this ▸ ⟨rfl, rfl, rfl⟩⟩)
          · injection hc2 with h3
            refine Or.inr (Or.inr ⟨line, List.mem_cons_self line rest, t, a, m, hml,
              ?_, ?_, ?_⟩)
            · rw [hag.1, ← h3]
            · rw [hag.2.1, ← h3]
            · rw [hag.2.2, ← h3]
          · exact Or.inr (Or.inr ⟨l, List.mem_cons_of_mem line hl, hf⟩)
      | none =>
        cases cur with
        | some c =>
          simp only [parseGo] at hp
          rw [if_neg hb] at hp
          simp only [hml] at hp
          rcases ih _ _ out hp mg hmg with h1 | ⟨c2, hc2, hag⟩ | ⟨l, hl, hf⟩
          · exact Or.inl h1
          · injection hc2 with h3
            refine Or.inr (Or.inl ⟨c, rfl, ?_, ?_, ?_⟩)
            · rw [hag.1, ← h3]
            · rw [hag.2.1, ← h3]
            · rw [hag.2.2, ← h3]
          · exact Or.inr (Or.inr ⟨l, List.mem_cons_of_mem line hl, hf⟩)
        | none =>
          simp only [parseGo] at hp
          rw [if_neg hb] at hp
          simp only [hml] at hp
          rcases ih _ _ out hp mg hmg with h1 | ⟨c2, hc2, -⟩ | ⟨l, hl, hf⟩
          · exact Or.inl h1
          · exact Option.noConfusion hc2
          · exact Or.inr (Or.inr ⟨l, List.mem_cons_of_mem line hl, hf⟩)

/-- C1 (amended): every message of a parsed table draws its author and
both classifier flags from the header line that opened it: the flags are
the keyword heuristics applied to that line's captured body fragment
(and author) — not to the full sealed body with its continuation lines
(see the counterexample for the difference). -/
theorem flags_from_header_line (content : String) (msgs : List Message)
    (h : parseContent content = .ok msgs) :
    ∀ mg ∈ msgs, ∃ l ∈ splitLines content.toList, flagsFromHeader l mg := by
  intro mg hmg
  rcases parseGo_flags _ [] none msgs h mg hmg with h1 | ⟨c, hc, -⟩ | h3
  · exact absurd h1 (List.not_mem_nil mg)
  · exact Option.noConfusion hc
  · exact h3

/-- Witness for C1's amended statement on a one-message input. -/
theorem flags_from_header_line_witness :
    ∃ l ∈ splitLines ("1/1/2023, 10:30 AM - b: yo" : String).toList,
      flagsFromHeader l ⟨⟨2023, 1, 1, 10, 30, 0⟩, "b".toList, "yo".toList,
        false, false⟩ :=
  flags_from_header_line "1/1/2023, 10:30 AM - b: yo"
    [⟨⟨2023, 1, 1, 10, 30, 0⟩, "b".toList, "yo".toList, false, false⟩]
    (by rfl) _ (by simp)

end WAParse
